import Mathlib

/-!
A shallow embedding of the rspec test-execution engine (tree model, report
aggregation, and the runner's recursive visit algorithm), together with
theorems checking the natural-language specification against it.

Conventions of the embedding:
* Rust `Fn(&mut T)` hooks become pure state transformers `T → T`; mutation
  through `&mut` is explicit value threading, and `environment.clone()` is
  modelled by passing the current value (so a callee that receives a clone
  simply does not return an updated value to its caller).
* Wall-clock durations (`time::PreciseTime`) are not modelled: report types
  omit their `duration` field, which no claim depends on.
* Side effects of hooks and example bodies are made observable through an
  event trace (`RunEvent`) emitted at exactly the call sites of the source
  (`wrap_all`/`wrap_each` hook loops, `(example.function)(environment)`).
* `rayon`'s `par_iter().map(f).collect()` is modelled by a divide-and-conquer
  split-join evaluation (`evaluate_blocks_parallel`), which mirrors rayon's
  order-preserving collect; thread interleaving itself is not modelled.
-/

namespace Rspec

/-- Cosmetic label of a `Suite` (src/header/suite.rs). -/
inductive SuiteLabel where
  | suite
  | describe
  | given
deriving DecidableEq, Repr

/-- Header with label and name of a `Suite` (src/header/suite.rs). -/
structure SuiteHeader where
  label : SuiteLabel
  name : String
deriving DecidableEq, Repr

/-- Cosmetic label of a `Context` (src/header/context.rs). -/
inductive ContextLabel where
  | context
  | specify
  | whenLabel
deriving DecidableEq, Repr

/-- Header with label and name of a `Context` (src/header/context.rs). -/
structure ContextHeader where
  label : ContextLabel
  name : String
deriving DecidableEq, Repr

/-- Cosmetic label of an `Example` (src/header/example.rs). -/
inductive ExampleLabel where
  | it
  | exampleLabel
  | thenLabel
deriving DecidableEq, Repr

/-- Header with label and name of an `Example` (src/header/example.rs). -/
structure ExampleHeader where
  label : ExampleLabel
  name : String
deriving DecidableEq, Repr

/-- Result of one example's execution (src/report/example.rs). -/
inductive ExampleResult where
  | success
  | failure (message : Option String)
  | ignored
deriving DecidableEq, Repr

/-- Source `ExampleResult::is_success`: true exactly on `Success`. -/
def ExampleResult.is_success : ExampleResult → Bool
  | .success => true
  | _ => false

/-- Source `ExampleResult::is_failure`: true exactly on `Failure(_)`. -/
def ExampleResult.is_failure : ExampleResult → Bool
  | .failure _ => true
  | _ => false

/-- Source `ExampleResult::get_passed`: 1 on `Success`, else 0. -/
def ExampleResult.get_passed : ExampleResult → Nat
  | .success => 1
  | _ => 0

/-- Source `ExampleResult::get_failed`: 1 on `Failure(_)`, else 0. -/
def ExampleResult.get_failed : ExampleResult → Nat
  | .failure _ => 1
  | _ => 0

/-- Source `ExampleResult::get_ignored`: 1 on `Ignored`, else 0. -/
def ExampleResult.get_ignored : ExampleResult → Nat
  | .ignored => 1
  | _ => 0

/-- Source `impl From<()> for ExampleResult`: unit is a success. -/
def ExampleResult.from_unit : Unit → ExampleResult := fun _ => .success

/-- Source `impl From<bool> for ExampleResult`: `true` is a success, `false`
a failure with the fixed assertion message (note the backquotes around the
condition text in the source string literal). -/
def ExampleResult.from_bool : Bool → ExampleResult
  | true => .success
  | false => .failure (some "assertion failed: `expected condition to be true`")

/-- Source `impl From<Result<T1, T2>> for ExampleResult`: `Ok(_)` is a
success, `Err(e)` a failure whose message is the debug formatting of `e`
(the `Debug` instance is passed explicitly as `debug_format`). -/
def ExampleResult.from_result {A E : Type} (debug_format : E → String) :
    Except E A → ExampleResult
  | .ok _ => .success
  | .error e => .failure (some (debug_format e))

/-- Report of one example's execution (src/report/example.rs), duration
omitted (not modelled). -/
structure ExampleReport where
  result : ExampleResult
deriving DecidableEq, Repr

/-- Source `impl Report for ExampleReport`, delegating to the result. -/
def ExampleReport.is_success (r : ExampleReport) : Bool := r.result.is_success

/-- Source `impl Report for ExampleReport`, delegating to the result. -/
def ExampleReport.is_failure (r : ExampleReport) : Bool := r.result.is_failure

/-- Source `impl Report for ExampleReport`, delegating to the result. -/
def ExampleReport.get_passed (r : ExampleReport) : Nat := r.result.get_passed

/-- Source `impl Report for ExampleReport`, delegating to the result. -/
def ExampleReport.get_failed (r : ExampleReport) : Nat := r.result.get_failed

/-- Source `impl Report for ExampleReport`, delegating to the result. -/
def ExampleReport.get_ignored (r : ExampleReport) : Nat := r.result.get_ignored

mutual

/-- Report of one block (src/report/mod.rs): a context report with the
context's optional header, or an example report with the example's header. -/
inductive BlockReport where
  | Context (header : Option ContextHeader) (report : ContextReport)
  | Example (header : ExampleHeader) (report : ExampleReport)

/-- Modelled from the spec: the post-1.0 `ContextReport` (an ordered sequence
of `BlockReport`s; src/report/context.rs of this version is absent from the
sources, which only hold the pre-1.0 counter-based variant, but the runner's
`ContextReport::new(reports, duration)` call and `report/mod.rs` force this
shape). Duration omitted (not modelled). -/
inductive ContextReport where
  | mk (sub_reports : List BlockReport)

end

/-- Field accessor of the spec-modelled `ContextReport`. -/
def ContextReport.sub_reports : ContextReport → List BlockReport
  | .mk subs => subs

mutual

/-- Source `impl Report for BlockReport`: delegate to the wrapped report. -/
def BlockReport.get_passed : BlockReport → Nat
  | .Context _ report => ContextReport.get_passed report
  | .Example _ report => report.get_passed

/-- Modelled from the spec: composite reports fold over their children, so a
context report's passed count is the sum over its `sub_reports`. -/
def ContextReport.get_passed : ContextReport → Nat
  | .mk subs => sub_reports_passed subs

/-- Sum of `get_passed` over a list of block reports. -/
def sub_reports_passed : List BlockReport → Nat
  | [] => 0
  | r :: rest => BlockReport.get_passed r + sub_reports_passed rest

end

mutual

/-- Source `impl Report for BlockReport`: delegate to the wrapped report. -/
def BlockReport.get_failed : BlockReport → Nat
  | .Context _ report => ContextReport.get_failed report
  | .Example _ report => report.get_failed

/-- Modelled from the spec: a context report's failed count is the sum over
its `sub_reports`. -/
def ContextReport.get_failed : ContextReport → Nat
  | .mk subs => sub_reports_failed subs

/-- Sum of `get_failed` over a list of block reports. -/
def sub_reports_failed : List BlockReport → Nat
  | [] => 0
  | r :: rest => BlockReport.get_failed r + sub_reports_failed rest

end

mutual

/-- Source `impl Report for BlockReport`: delegate to the wrapped report. -/
def BlockReport.get_ignored : BlockReport → Nat
  | .Context _ report => ContextReport.get_ignored report
  | .Example _ report => report.get_ignored

/-- Modelled from the spec: a context report's ignored count is the sum over
its `sub_reports`. -/
def ContextReport.get_ignored : ContextReport → Nat
  | .mk subs => sub_reports_ignored subs

/-- Sum of `get_ignored` over a list of block reports. -/
def sub_reports_ignored : List BlockReport → Nat
  | [] => 0
  | r :: rest => BlockReport.get_ignored r + sub_reports_ignored rest

end

mutual

/-- Source `impl Report for BlockReport`: delegate to the wrapped report. -/
def BlockReport.is_failure : BlockReport → Bool
  | .Context _ report => ContextReport.is_failure report
  | .Example _ report => report.is_failure

/-- Modelled from the spec: a context report is a failure iff any of its
`sub_reports` is a failure. -/
def ContextReport.is_failure : ContextReport → Bool
  | .mk subs => sub_reports_any_failure subs

/-- Disjunction of `is_failure` over a list of block reports. -/
def sub_reports_any_failure : List BlockReport → Bool
  | [] => false
  | r :: rest => BlockReport.is_failure r || sub_reports_any_failure rest

end

mutual

/-- Source `impl Report for BlockReport`: delegate to the wrapped report. -/
def BlockReport.is_success : BlockReport → Bool
  | .Context _ report => ContextReport.is_success report
  | .Example _ report => report.is_success

/-- Modelled from the spec: a context report is a success iff all of its
`sub_reports` are successes. -/
def ContextReport.is_success : ContextReport → Bool
  | .mk subs => sub_reports_all_success subs

/-- Conjunction of `is_success` over a list of block reports. -/
def sub_reports_all_success : List BlockReport → Bool
  | [] => true
  | r :: rest => BlockReport.is_success r && sub_reports_all_success rest

end

/-- Report of a whole suite run (src/report/suite.rs), duration omitted. -/
structure SuiteReport where
  header : SuiteHeader
  context : ContextReport

/-- Source `SuiteReport::get_header`. -/
def SuiteReport.get_header (r : SuiteReport) : SuiteHeader := r.header

/-- Source `SuiteReport::get_context`. -/
def SuiteReport.get_context (r : SuiteReport) : ContextReport := r.context

/-- Source `impl Report for SuiteReport`: delegate to the root context. -/
def SuiteReport.is_success (r : SuiteReport) : Bool := r.context.is_success

/-- Source `impl Report for SuiteReport`: delegate to the root context. -/
def SuiteReport.is_failure (r : SuiteReport) : Bool := r.context.is_failure

/-- Source `impl Report for SuiteReport`: delegate to the root context. -/
def SuiteReport.get_passed (r : SuiteReport) : Nat := r.context.get_passed

/-- Source `impl Report for SuiteReport`: delegate to the root context. -/
def SuiteReport.get_failed (r : SuiteReport) : Nat := r.context.get_failed

/-- Source `impl Report for SuiteReport`: delegate to the root context. -/
def SuiteReport.get_ignored (r : SuiteReport) : Nat := r.context.get_ignored

end Rspec

namespace Rspec

/-- Leaf of the tree: a named example with its stored body
(src/block/example.rs); the body has signature `(&T) -> ExampleResult`. -/
structure Example (T : Type) where
  header : ExampleHeader
  function : T → ExampleResult

mutual

/-- Tagged union of a nested context or a leaf example (src/block/mod.rs). -/
inductive Block (T : Type) where
  | Context (context : Context T)
  | Example (ex : Example T)

/-- Grouping node with optional header, ordered child blocks and the four
ordered hook lists (src/block/context.rs); `Fn(&mut T)` hooks are modelled
as state transformers `T → T`. -/
inductive Context (T : Type) where
  | mk (header : Option ContextHeader) (blocks : List (Block T))
       (before_all : List (T → T)) (before_each : List (T → T))
       (after_all : List (T → T)) (after_each : List (T → T))

end

/-- Field accessor for `Context.header`. -/
def Context.header {T : Type} : Context T → Option ContextHeader
  | .mk h _ _ _ _ _ => h

/-- Field accessor for `Context.blocks`. -/
def Context.blocks {T : Type} : Context T → List (Block T)
  | .mk _ bs _ _ _ _ => bs

/-- Field accessor for `Context.before_all`. -/
def Context.before_all {T : Type} : Context T → List (T → T)
  | .mk _ _ ba _ _ _ => ba

/-- Field accessor for `Context.before_each`. -/
def Context.before_each {T : Type} : Context T → List (T → T)
  | .mk _ _ _ be _ _ => be

/-- Field accessor for `Context.after_all`. -/
def Context.after_all {T : Type} : Context T → List (T → T)
  | .mk _ _ _ _ aa _ => aa

/-- Field accessor for `Context.after_each`. -/
def Context.after_each {T : Type} : Context T → List (T → T)
  | .mk _ _ _ _ _ ae => ae

mutual

/-- Source `Block::num_examples`: 1 for a leaf, recursive sum for a context. -/
def Block.num_examples {T : Type} : Block T → Nat
  | .Context c => Context.num_examples c
  | .Example _ => 1

/-- Source `Context::num_examples`: sum over the child blocks. -/
def Context.num_examples {T : Type} : Context T → Nat
  | .mk _ blocks _ _ _ _ => blocks_num_examples blocks

/-- Sum of `num_examples` over a list of blocks. -/
def blocks_num_examples {T : Type} : List (Block T) → Nat
  | [] => 0
  | b :: rest => Block.num_examples b + blocks_num_examples rest

end

/-- Top-level suite: header, initial environment, root context
(src/block/suite.rs). -/
structure Suite (T : Type) where
  header : SuiteHeader
  environment : T
  context : Context T

/-- Runner configuration (src/runner/configuration.rs). -/
structure Configuration where
  parallel : Bool
  exit_on_failure : Bool
deriving DecidableEq, Repr

/-- Source defaults: both options default to `true`. -/
def Configuration.default : Configuration :=
  { parallel := true, exit_on_failure := true }

/-- Which of the four hook lists an event comes from. -/
inductive HookKind where
  | before_all
  | before_each
  | after_all
  | after_each
deriving DecidableEq, Repr

/-- Observable call events of a run: invocation of the `index`-th hook of a
given kind with its argument, or invocation of an example body with its
argument.  Events are emitted at exactly the call sites of the source
(the hook loops of `wrap_all`/`wrap_each`, and
`(example.function)(environment)` in `visit(Example)`). -/
inductive RunEvent (T : Type) where
  | hook_call (kind : HookKind) (index : Nat) (environment : T)
  | example_call (header : ExampleHeader) (environment : T)
deriving DecidableEq, Repr

/-- Source hook loop (`for f in hooks.iter() { f(environment) }`): applies
the hooks in declaration order starting at `index`, threading the
environment, and records one event per invocation. -/
def run_hooks_traced {T : Type} (kind : HookKind) :
    Nat → List (T → T) → T → T × List (RunEvent T)
  | _, [], env => (env, [])
  | index, h :: rest, env =>
      let p := run_hooks_traced kind (index + 1) rest (h env)
      (p.1, RunEvent.hook_call kind index env :: p.2)

/-- Environment after running a hook list in declaration order (the pure
projection of the source hook loop). -/
def apply_hooks {T : Type} (hooks : List (T → T)) (env : T) : T :=
  hooks.foldl (fun e h => h e) env

/-- Output of one visit: the produced report, the (possibly mutated)
environment the caller's `&mut` reference sees afterwards, and the trace. -/
structure VisitOutput (R T : Type) where
  report : R
  environment : T
  trace : List (RunEvent T)

/-- Output of `evaluate_block` (the mutated per-block clone is discarded by
the source, so only report and trace remain). -/
structure BlockEval (T : Type) where
  report : BlockReport
  trace : List (RunEvent T)

/-- Output of a fan-out step over a context's blocks. -/
structure BlocksEval (T : Type) where
  reports : List BlockReport
  trace : List (RunEvent T)

/-- Source `impl TestSuiteVisitor<Example<T>> for Runner`: calls the stored
body on `&environment` (which it cannot mutate) and wraps the result. -/
def Runner.visit_example {T : Type} (ex : Example T) (env : T) :
    VisitOutput ExampleReport T :=
  { report := { result := ex.function env },
    environment := env,
    trace := [RunEvent.example_call ex.header env] }

mutual

/-- Source `impl TestSuiteVisitor<Block<T>> for Runner`: an example is
visited on the given environment; a nested context is visited on
`&mut environment.clone()` — a fresh copy, so the caller's environment is
returned unchanged. -/
def Runner.visit_block {T : Type} (cfg : Configuration) :
    Block T → T → VisitOutput BlockReport T
  | .Example ex, env =>
      let out := Runner.visit_example ex env
      { report := .Example ex.header out.report,
        environment := out.environment,
        trace := out.trace }
  | .Context ctx, env =>
      let out := Runner.visit_context cfg ctx env
      { report := .Context ctx.header out.report,
        environment := env,
        trace := out.trace }
termination_by b _ => 2 * sizeOf b
decreasing_by
all_goals simp_wf
all_goals omega

/-- Source `impl TestSuiteVisitor<Context<T>> for Runner`, with `wrap_all`
inlined: run the `before_all` hooks on the environment, fan out over the
blocks (parallel or serial by configuration), run the `after_all` hooks on
the same (original, not cloned) environment, and collect the sub-reports in
declaration order. -/
def Runner.visit_context {T : Type} (cfg : Configuration) :
    Context T → T → VisitOutput ContextReport T
  | .mk _header blocks b_all b_each a_all a_each, env =>
      let pb := run_hooks_traced HookKind.before_all 0 b_all env
      let pr := if cfg.parallel
                then Runner.evaluate_blocks_parallel cfg blocks b_each a_each pb.1
                else Runner.evaluate_blocks_serial cfg blocks b_each a_each pb.1
      let pa := run_hooks_traced HookKind.after_all 0 a_all pb.1
      { report := ContextReport.mk pr.reports,
        environment := pa.1,
        trace := pb.2 ++ pr.trace ++ pa.2 }
termination_by c _ => 2 * sizeOf c
decreasing_by
all_goals simp_wf
all_goals omega

/-- Source `Runner::evaluate_block`, with `wrap_each` inlined: clone the
parent's environment (modelled by taking `env` by value), run the
`before_each` hooks on the clone, dispatch the block, run the `after_each`
hooks on the clone, and discard the clone. -/
def Runner.evaluate_block {T : Type} (cfg : Configuration) (block : Block T)
    (b_each a_each : List (T → T)) (env : T) : BlockEval T :=
  let pb := run_hooks_traced HookKind.before_each 0 b_each env
  let pv := Runner.visit_block cfg block pb.1
  let pa := run_hooks_traced HookKind.after_each 0 a_each pv.environment
  { report := pv.report, trace := pb.2 ++ pv.trace ++ pa.2 }
termination_by 2 * sizeOf block + 1
decreasing_by
all_goals simp_wf
all_goals omega

/-- Source `Runner::evaluate_blocks_serial`: strictly sequential map of
`evaluate_block` over the blocks in declaration order. -/
def Runner.evaluate_blocks_serial {T : Type} (cfg : Configuration) :
    List (Block T) → List (T → T) → List (T → T) → T → BlocksEval T
  | [], _, _, _ => { reports := [], trace := [] }
  | b :: rest, b_each, a_each, env =>
      let p := Runner.evaluate_block cfg b b_each a_each env
      let ps := Runner.evaluate_blocks_serial cfg rest b_each a_each env
      { reports := p.report :: ps.reports, trace := p.trace ++ ps.trace }
termination_by l _ _ _ => 2 * sizeOf l + 1
decreasing_by
all_goals simp_wf
all_goals omega

/-- Source `Runner::evaluate_blocks_parallel`: rayon's order-preserving
`par_iter().map(..).collect()`, modelled by its divide-and-conquer split-join
evaluation (contiguous halves, results concatenated in declaration order). -/
def Runner.evaluate_blocks_parallel {T : Type} (cfg : Configuration) :
    List (Block T) → List (T → T) → List (T → T) → T → BlocksEval T
  | [], _, _, _ => { reports := [], trace := [] }
  | [b], b_each, a_each, env =>
      let p := Runner.evaluate_block cfg b b_each a_each env
      { reports := [p.report], trace := p.trace }
  | b₁ :: b₂ :: rest, b_each, a_each, env =>
      let left := Runner.evaluate_blocks_parallel cfg
        (List.take ((b₁ :: b₂ :: rest).length / 2) (b₁ :: b₂ :: rest))
        b_each a_each env
      let right := Runner.evaluate_blocks_parallel cfg
        (List.drop ((b₁ :: b₂ :: rest).length / 2) (b₁ :: b₂ :: rest))
        b_each a_each env
      { reports := left.reports ++ right.reports,
        trace := left.trace ++ right.trace }
termination_by l _ _ _ => 2 * sizeOf l + 1
decreasing_by
all_goals simp_wf
· omega
· have hpos : ∀ (l : List (Block T)), 1 ≤ sizeOf l := by
    intro l; cases l <;> simp <;> omega
  have key : ∀ (n : Nat) (l : List (Block T)),
      sizeOf (List.take n l) + sizeOf (List.drop n l) = 1 + sizeOf l := by
    intro n l
    induction l generalizing n with
    | nil => cases n <;> simp
    | cons a t ih =>
      cases n with
      | zero => simp
      | succ m =>
        have h := ih m
        simp only [List.take_succ_cons, List.drop_succ_cons, List.cons.sizeOf_spec]
        omega
  have hdrop : ∀ (n : Nat) (l : List (Block T)), n < l.length →
      2 ≤ sizeOf (List.drop n l) := by
    intro n l
    induction l generalizing n with
    | nil => simp
    | cons a t ih =>
      cases n with
      | zero =>
        intro _
        have := hpos t
        simp; omega
      | succ m =>
        intro h
        have := ih m (by simpa using Nat.lt_of_succ_lt_succ h)
        simpa using this
  have h1 := key ((b₁ :: b₂ :: rest).length / 2) (b₁ :: b₂ :: rest)
  have h2 := hdrop ((b₁ :: b₂ :: rest).length / 2) (b₁ :: b₂ :: rest)
    (by simp; omega)
  simp only [List.cons.sizeOf_spec, List.length_cons] at h1 h2 ⊢
  omega
· have hpos : ∀ (l : List (Block T)), 1 ≤ sizeOf l := by
    intro l; cases l <;> simp <;> omega
  have key : ∀ (n : Nat) (l : List (Block T)),
      sizeOf (List.take n l) + sizeOf (List.drop n l) = 1 + sizeOf l := by
    intro n l
    induction l generalizing n with
    | nil => cases n <;> simp
    | cons a t ih =>
      cases n with
      | zero => simp
      | succ m =>
        have h := ih m
        simp only [List.take_succ_cons, List.drop_succ_cons, List.cons.sizeOf_spec]
        omega
  have htake : ∀ (n : Nat) (l : List (Block T)), 0 < n → l ≠ [] →
      2 ≤ sizeOf (List.take n l) := by
    intro n l hn hl
    cases n with
    | zero => omega
    | succ m =>
      cases l with
      | nil => exact absurd rfl hl
      | cons a t =>
        have := hpos (List.take m t)
        simp; omega
  have h1 := key ((b₁ :: b₂ :: rest).length / 2) (b₁ :: b₂ :: rest)
  have h2 := htake ((b₁ :: b₂ :: rest).length / 2) (b₁ :: b₂ :: rest)
    (by simp; omega) (by simp)
  simp only [List.cons.sizeOf_spec, List.length_cons] at h1 h2 ⊢
  omega

end

end Rspec

namespace Rspec

/-- Source `Runner::wrap_all`: run the `before_all` hooks in declaration
order on the environment, call the wrapped block (which may itself mutate
the environment it is handed), then run the `after_all` hooks in declaration
order; pure (untraced) semantics. -/
def Runner.wrap_all {T U : Type} (context : Context T) (environment : T)
    (wrapped_block : T → U × T) : U × T :=
  let env₁ := apply_hooks context.before_all environment
  let p := wrapped_block env₁
  (p.1, apply_hooks context.after_all p.2)

/-- Source `Runner::wrap_each`: run the `before_each` hooks, the wrapped
block, then the `after_each` hooks, in declaration order; pure semantics. -/
def Runner.wrap_each {T U : Type} (context : Context T) (environment : T)
    (wrapped_block : T → U × T) : U × T :=
  let env₁ := apply_hooks context.before_each environment
  let p := wrapped_block env₁
  (p.1, apply_hooks context.after_each p.2)

/-- Source `impl TestSuiteVisitor<Suite<T>> for Runner`: visit the root
context and wrap its report with the suite's header. -/
def Runner.visit_suite {T : Type} (cfg : Configuration) (suite : Suite T)
    (env : T) : VisitOutput SuiteReport T :=
  let out := Runner.visit_context cfg suite.context env
  { report := { header := suite.header, context := out.report },
    environment := out.environment,
    trace := out.trace }

/-- The runner's persistent state (src/runner/mod.rs): its configuration and
the `should_exit` flag (`Mutex<Cell<bool>>` in the source; observers are
external IO collaborators and are not modelled). -/
structure Runner where
  configuration : Configuration
  should_exit : Bool

/-- Source `Runner::new`: `should_exit` starts out false. -/
def Runner.new (configuration : Configuration) : Runner :=
  { configuration := configuration, should_exit := false }

/-- Source `Runner::run`: clone the suite's initial environment, visit the
suite, and OR the report's failure bit into `should_exit`; the report is
returned unchanged.  (The panic-hook install/uninstall around the visit is
IO-only and not modelled.) -/
def Runner.run {T : Type} (runner : Runner) (suite : Suite T) :
    SuiteReport × Runner :=
  let environment := suite.environment
  let out := Runner.visit_suite runner.configuration suite environment
  (out.report,
   { runner with should_exit := runner.should_exit || out.report.is_failure })

/-- Reuse pattern of the source (`a Runner may be reused across multiple
independent run calls accumulating failure state`): run a list of suites in
sequence on the same runner, collecting the reports. -/
def Runner.run_all {T : Type} (runner : Runner) :
    List (Suite T) → List SuiteReport × Runner
  | [] => ([], runner)
  | s :: rest =>
      let p := Runner.run runner s
      let q := Runner.run_all p.2 rest
      (p.1 :: q.1, q.2)

/-- Source `impl Drop for Runner`: on drop, the process exits with the fixed
status 101 iff `exit_on_failure` is configured and `should_exit` was
recorded; otherwise no exit happens.  The process exit is modelled as the
returned exit code. -/
def Runner.drop_exit_code (runner : Runner) : Option Nat :=
  if runner.configuration.exit_on_failure && runner.should_exit then some 101
  else none

/-- Source `SuiteReport::or_exit`: exit the process with status 101 if the
report is a failure, otherwise return the report unchanged; the exit is
modelled as the `error` branch. -/
def SuiteReport.or_exit (report : SuiteReport) : Except Nat SuiteReport :=
  if report.is_failure then .error 101 else .ok report

/-- Payload of a caught Rust panic as seen by the downcast chain of
`example_internal`: a `&str`, a `String`, or any other (unrecognized)
type. -/
inductive PanicPayload where
  | strPayload (s : String)
  | stringPayload (s : String)
  | other
deriving DecidableEq, Repr

/-- Outcome of evaluating a user body under `catch_unwind`: a normal return
or a panic with its payload. -/
inductive PanicOutcome (U : Type) where
  | ok (value : U)
  | panicked (payload : PanicPayload)
deriving DecidableEq, Repr

/-- Rust `{:?}` (Debug) escaping of one character of a string: quotes,
backslashes and the common control characters are escaped. -/
def rust_debug_char (c : Char) : String :=
  if c = '"' then "\\\""
  else if c = '\\' then "\\\\"
  else if c = '\n' then "\\n"
  else if c = '\r' then "\\r"
  else if c = '\t' then "\\t"
  else String.singleton c

/-- Rust `{:?}` (Debug) formatting of a string: quoted and escaped. -/
def rust_debug_str (s : String) : String :=
  "\"" ++ String.join (s.toList.map rust_debug_char) ++ "\""

/-- Source `Context::example_internal` (src/block/context.rs): the stored
example function wraps the user body in `catch_unwind`; a normal return is
passed through, a panic is downcast to `&str` then to `String`, and the
recovered text (if any) is formatted as
`thread panicked at '{:?}'.`; the result is a `Failure` carrying that
optional message.  The user body is modelled after its `.into()` conversion
(§4.2), so it returns `PanicOutcome ExampleResult`. -/
def example_internal_function {T : Type}
    (body : T → PanicOutcome ExampleResult) : T → ExampleResult :=
  fun environment =>
    match body environment with
    | .ok result => result
    | .panicked payload =>
        let error_as_str : Option String :=
          match payload with
          | .strPayload s => some s
          | _ => none
        let error_as_string : Option String :=
          match payload with
          | .stringPayload s => some s
          | _ => none
        let message := (error_as_str.or error_as_string).map
          (fun cow => "thread panicked at '" ++ rust_debug_str cow ++ "'.")
        .failure message

/-- Statement-side description of the events the hook loop emits: the
`i`-th hook of the list is called exactly once, in declaration order, on the
environment obtained by applying the hooks before it. -/
def spec_hook_calls {T : Type} (kind : HookKind) (hooks : List (T → T))
    (env : T) : List (RunEvent T) :=
  (List.range hooks.length).map
    (fun i => RunEvent.hook_call kind i (apply_hooks (hooks.take i) env))

mutual

/-- Statement-side predicate: every example in the block satisfies `P`. -/
def Block.examples_all {T : Type} (P : Example T → Prop) : Block T → Prop
  | .Context c => Context.examples_all P c
  | .Example ex => P ex

/-- Statement-side predicate: every example in the context satisfies `P`. -/
def Context.examples_all {T : Type} (P : Example T → Prop) : Context T → Prop
  | .mk _ blocks _ _ _ _ => blocks_examples_all P blocks

/-- Statement-side predicate over a list of blocks. -/
def blocks_examples_all {T : Type} (P : Example T → Prop) :
    List (Block T) → Prop
  | [] => True
  | b :: rest => Block.examples_all P b ∧ blocks_examples_all P rest

end

mutual

/-- Statement-side predicate: some example in the block satisfies `P`. -/
def Block.examples_any {T : Type} (P : Example T → Prop) : Block T → Prop
  | .Context c => Context.examples_any P c
  | .Example ex => P ex

/-- Statement-side predicate: some example in the context satisfies `P`. -/
def Context.examples_any {T : Type} (P : Example T → Prop) : Context T → Prop
  | .mk _ blocks _ _ _ _ => blocks_examples_any P blocks

/-- Statement-side predicate over a list of blocks. -/
def blocks_examples_any {T : Type} (P : Example T → Prop) :
    List (Block T) → Prop
  | [] => False
  | b :: rest => Block.examples_any P b ∨ blocks_examples_any P rest

end

mutual

/-- Statement-side counter: number of examples in the block satisfying the
boolean predicate `p`. -/
def Block.count_examples {T : Type} (p : Example T → Bool) : Block T → Nat
  | .Context c => Context.count_examples p c
  | .Example ex => if p ex then 1 else 0

/-- Statement-side counter over a context. -/
def Context.count_examples {T : Type} (p : Example T → Bool) :
    Context T → Nat
  | .mk _ blocks _ _ _ _ => blocks_count_examples p blocks

/-- Statement-side counter over a list of blocks. -/
def blocks_count_examples {T : Type} (p : Example T → Bool) :
    List (Block T) → Nat
  | [] => 0
  | b :: rest => Block.count_examples p b + blocks_count_examples p rest

end

end Rspec

namespace Rspec

mutual

/-- Statement-side reference predicate: some descendant example of the block
report is a `Failure`. -/
def BlockReport.has_failed_example : BlockReport → Prop
  | .Context _ report => ContextReport.has_failed_example report
  | .Example _ report => report.result.is_failure = true

/-- Statement-side reference predicate: some descendant example of the
context report is a `Failure`. -/
def ContextReport.has_failed_example : ContextReport → Prop
  | .mk subs => sub_reports_has_failed_example subs

/-- Statement-side reference predicate over a list of block reports. -/
def sub_reports_has_failed_example : List BlockReport → Prop
  | [] => False
  | r :: rest =>
      BlockReport.has_failed_example r ∨ sub_reports_has_failed_example rest

end

end Rspec

namespace Rspec

/-- Concrete fixture: an example whose body always succeeds. -/
def witness_example_ok : Example Nat :=
  { header := { label := ExampleLabel.it, name := "ok" },
    function := fun _ => ExampleResult.success }

/-- Concrete fixture: an example whose body always fails. -/
def witness_example_fail : Example Nat :=
  { header := { label := ExampleLabel.it, name := "fail" },
    function := fun _ => ExampleResult.failure none }

/-- Concrete fixture: a context with one failing and one passing example. -/
def witness_context_mixed : Context Nat :=
  Context.mk none
    [Block.Example witness_example_fail, Block.Example witness_example_ok]
    [] [] [] []

/-- Concrete fixture: like `witness_context_mixed` but with a different
first sibling (used to show sibling isolation). -/
def witness_context_alt : Context Nat :=
  Context.mk none
    [Block.Example witness_example_ok, Block.Example witness_example_ok]
    [] [] [] []

/-- Concrete fixture: a suite around `witness_context_mixed`. -/
def witness_suite_mixed : Suite Nat :=
  { header := { label := SuiteLabel.suite, name := "s" },
    environment := 0,
    context := witness_context_mixed }

/-- Concrete fixture over `Unit`: an example whose body always succeeds. -/
def witness_example_ok_u : Example Unit :=
  { header := { label := ExampleLabel.it, name := "ok" },
    function := fun _ => ExampleResult.success }

/-- Concrete fixture over `Unit`: an example whose body always fails. -/
def witness_example_fail_u : Example Unit :=
  { header := { label := ExampleLabel.it, name := "fail" },
    function := fun _ => ExampleResult.failure none }

/-- Concrete fixture: a context with a failing example next to a nested
context holding a passing example (so the passing example is not a direct
child of the root). -/
def witness_context_nested_u : Context Unit :=
  Context.mk none
    [Block.Example witness_example_fail_u,
     Block.Context (Context.mk none [Block.Example witness_example_ok_u]
       [] [] [] [])]
    [] [] [] []

/-- Concrete fixture: a suite around `witness_context_nested_u`. -/
def witness_suite_nested_u : Suite Unit :=
  { header := { label := SuiteLabel.suite, name := "s" },
    environment := (),
    context := witness_context_nested_u }

end Rspec

namespace Rspec

theorem apply_hooks_nil {T : Type} (env : T) :
    apply_hooks ([] : List (T → T)) env = env := rfl

theorem apply_hooks_cons {T : Type} (h : T → T) (hooks : List (T → T))
    (env : T) : apply_hooks (h :: hooks) env = apply_hooks hooks (h env) := rfl

theorem run_hooks_traced_fst {T : Type} (kind : HookKind)
    (hooks : List (T → T)) : ∀ (i : Nat) (env : T),
    (run_hooks_traced kind i hooks env).1 = apply_hooks hooks env := by
  induction hooks with
  | nil => intro i env; rfl
  | cons h rest ih =>
      intro i env
      simp only [run_hooks_traced, apply_hooks_cons]
      exact ih (i + 1) (h env)

theorem run_hooks_traced_snd {T : Type} (kind : HookKind)
    (hooks : List (T → T)) : ∀ (i : Nat) (env : T),
    (run_hooks_traced kind i hooks env).2
      = (List.range hooks.length).map
          (fun j => RunEvent.hook_call kind (i + j)
            (apply_hooks (hooks.take j) env)) := by
  induction hooks with
  | nil => intro i env; simp [run_hooks_traced]
  | cons h rest ih =>
      intro i env
      simp only [run_hooks_traced, List.length_cons, List.range_succ_eq_map,
        List.map_cons, List.map_map, ih (i + 1) (h env)]
      congr 1
      apply List.map_congr_left
      intro j _
      simp only [Function.comp_apply, List.take_succ_cons, apply_hooks_cons]
      congr 1
      omega

theorem run_hooks_traced_spec {T : Type} (kind : HookKind)
    (hooks : List (T → T)) (env : T) :
    run_hooks_traced kind 0 hooks env
      = (apply_hooks hooks env, spec_hook_calls kind hooks env) := by
  have h1 := run_hooks_traced_fst kind hooks 0 env
  have h2 := run_hooks_traced_snd kind hooks 0 env
  have : (run_hooks_traced kind 0 hooks env)
      = ((run_hooks_traced kind 0 hooks env).1,
         (run_hooks_traced kind 0 hooks env).2) := rfl
  rw [this, h1, h2]
  simp [spec_hook_calls]

theorem visit_block_environment {T : Type} (cfg : Configuration)
    (b : Block T) (env : T) :
    (Runner.visit_block cfg b env).environment = env := by
  cases b with
  | Context c => simp [Runner.visit_block]
  | Example ex => simp [Runner.visit_block, Runner.visit_example]

theorem evaluate_block_eq {T : Type} (cfg : Configuration) (b : Block T)
    (b_each a_each : List (T → T)) (env : T) :
    Runner.evaluate_block cfg b b_each a_each env
      = { report := (Runner.visit_block cfg b (apply_hooks b_each env)).report,
          trace := spec_hook_calls HookKind.before_each b_each env
            ++ (Runner.visit_block cfg b (apply_hooks b_each env)).trace
            ++ spec_hook_calls HookKind.after_each a_each
                 (apply_hooks b_each env) } := by
  rw [Runner.evaluate_block]
  simp only [run_hooks_traced_spec, visit_block_environment]

theorem evaluate_blocks_serial_eq {T : Type} (cfg : Configuration)
    (l : List (Block T)) (b_each a_each : List (T → T)) (env : T) :
    Runner.evaluate_blocks_serial cfg l b_each a_each env
      = { reports :=
            l.map (fun b => (Runner.evaluate_block cfg b b_each a_each env).report),
          trace :=
            (l.map (fun b => (Runner.evaluate_block cfg b b_each a_each env).trace)).join } := by
  induction l with
  | nil => simp [Runner.evaluate_blocks_serial]
  | cons b rest ih => simp [Runner.evaluate_blocks_serial, ih]

theorem evaluate_blocks_serial_append {T : Type} (cfg : Configuration)
    (l₁ l₂ : List (Block T)) (b_each a_each : List (T → T)) (env : T) :
    Runner.evaluate_blocks_serial cfg (l₁ ++ l₂) b_each a_each env
      = { reports := (Runner.evaluate_blocks_serial cfg l₁ b_each a_each env).reports
            ++ (Runner.evaluate_blocks_serial cfg l₂ b_each a_each env).reports,
          trace := (Runner.evaluate_blocks_serial cfg l₁ b_each a_each env).trace
            ++ (Runner.evaluate_blocks_serial cfg l₂ b_each a_each env).trace } := by
  simp [evaluate_blocks_serial_eq]

theorem evaluate_blocks_parallel_eq_serial_bounded {T : Type}
    (cfg : Configuration) (b_each a_each : List (T → T)) :
    ∀ (n : Nat) (l : List (Block T)), l.length ≤ n → ∀ (env : T),
      Runner.evaluate_blocks_parallel cfg l b_each a_each env
        = Runner.evaluate_blocks_serial cfg l b_each a_each env := by
  intro n
  induction n with
  | zero =>
      intro l hl env
      have : l = [] := List.length_eq_zero.mp (Nat.le_zero.mp hl)
      subst this
      simp [Runner.evaluate_blocks_parallel, Runner.evaluate_blocks_serial]
  | succ n ih =>
      intro l hl env
      match l with
      | [] => simp [Runner.evaluate_blocks_parallel, Runner.evaluate_blocks_serial]
      | [b] => simp [Runner.evaluate_blocks_parallel, Runner.evaluate_blocks_serial]
      | b₁ :: b₂ :: rest =>
          rw [Runner.evaluate_blocks_parallel]
          have hlen : (b₁ :: b₂ :: rest).length = rest.length + 2 := by simp
          have htake : (List.take ((b₁ :: b₂ :: rest).length / 2)
              (b₁ :: b₂ :: rest)).length ≤ n := by
            simp only [List.length_take, hlen]
            have : rest.length + 2 ≤ n + 1 := by simpa [hlen] using hl
            omega
          have hdrop : (List.drop ((b₁ :: b₂ :: rest).length / 2)
              (b₁ :: b₂ :: rest)).length ≤ n := by
            simp only [List.length_drop, hlen]
            have : rest.length + 2 ≤ n + 1 := by simpa [hlen] using hl
            omega
          rw [ih _ htake, ih _ hdrop]
          have := evaluate_blocks_serial_append cfg
            (List.take ((b₁ :: b₂ :: rest).length / 2) (b₁ :: b₂ :: rest))
            (List.drop ((b₁ :: b₂ :: rest).length / 2) (b₁ :: b₂ :: rest))
            b_each a_each env
          rw [List.take_append_drop] at this
          rw [this]

theorem evaluate_blocks_parallel_eq_serial {T : Type} (cfg : Configuration)
    (l : List (Block T)) (b_each a_each : List (T → T)) (env : T) :
    Runner.evaluate_blocks_parallel cfg l b_each a_each env
      = Runner.evaluate_blocks_serial cfg l b_each a_each env :=
  evaluate_blocks_parallel_eq_serial_bounded cfg b_each a_each l.length l
    (Nat.le_refl _) env

theorem visit_context_eq {T : Type} (cfg : Configuration) (ctx : Context T)
    (env : T) :
    Runner.visit_context cfg ctx env
      = { report := ContextReport.mk
            (ctx.blocks.map (fun b =>
              (Runner.evaluate_block cfg b ctx.before_each ctx.after_each
                (apply_hooks ctx.before_all env)).report)),
          environment := apply_hooks ctx.after_all
            (apply_hooks ctx.before_all env),
          trace := spec_hook_calls HookKind.before_all ctx.before_all env
            ++ (ctx.blocks.map (fun b =>
                 (Runner.evaluate_block cfg b ctx.before_each ctx.after_each
                   (apply_hooks ctx.before_all env)).trace)).join
            ++ spec_hook_calls HookKind.after_all ctx.after_all
                 (apply_hooks ctx.before_all env) } := by
  cases ctx with
  | mk h blocks b_all b_each a_all a_each =>
      rw [Runner.visit_context]
      simp only [run_hooks_traced_spec, evaluate_blocks_parallel_eq_serial,
        evaluate_blocks_serial_eq, Context.blocks, Context.before_all,
        Context.before_each, Context.after_all, Context.after_each]
      cases cfg.parallel <;> simp

end Rspec

namespace Rspec

theorem sub_reports_passed_eq (l : List BlockReport) :
    sub_reports_passed l = (l.map BlockReport.get_passed).sum := by
  induction l with
  | nil => rfl
  | cons r rest ih => simp [sub_reports_passed, ih]

theorem sub_reports_failed_eq (l : List BlockReport) :
    sub_reports_failed l = (l.map BlockReport.get_failed).sum := by
  induction l with
  | nil => rfl
  | cons r rest ih => simp [sub_reports_failed, ih]

theorem sub_reports_ignored_eq (l : List BlockReport) :
    sub_reports_ignored l = (l.map BlockReport.get_ignored).sum := by
  induction l with
  | nil => rfl
  | cons r rest ih => simp [sub_reports_ignored, ih]

theorem sub_reports_any_failure_eq (l : List BlockReport) :
    sub_reports_any_failure l = l.any BlockReport.is_failure := by
  induction l with
  | nil => rfl
  | cons r rest ih => simp [sub_reports_any_failure, ih]

theorem sub_reports_all_success_eq (l : List BlockReport) :
    sub_reports_all_success l = l.all BlockReport.is_success := by
  induction l with
  | nil => rfl
  | cons r rest ih => simp [sub_reports_all_success, ih]

theorem sub_reports_has_failed_iff (l : List BlockReport) :
    sub_reports_has_failed_example l
      ↔ ∃ r ∈ l, BlockReport.has_failed_example r := by
  induction l with
  | nil => simp [sub_reports_has_failed_example]
  | cons r rest ih => simp [sub_reports_has_failed_example, ih]

theorem sub_reports_failed_map_zero {α : Type} (l : List α)
    (f : α → BlockReport) (h : ∀ b ∈ l, (f b).get_failed = 0) :
    sub_reports_failed (l.map f) = 0 := by
  induction l with
  | nil => rfl
  | cons b rest ih =>
      simp only [List.map_cons, sub_reports_failed]
      rw [h b (List.mem_cons_self b rest),
        ih (fun x hx => h x (List.mem_cons_of_mem b hx))]

theorem sub_reports_any_failure_map_false {α : Type} (l : List α)
    (f : α → BlockReport) (h : ∀ b ∈ l, (f b).is_failure = false) :
    sub_reports_any_failure (l.map f) = false := by
  induction l with
  | nil => rfl
  | cons b rest ih =>
      simp only [List.map_cons, sub_reports_any_failure]
      rw [h b (List.mem_cons_self b rest),
        ih (fun x hx => h x (List.mem_cons_of_mem b hx))]
      rfl

theorem sub_reports_any_failure_map_mem {α : Type} (l : List α)
    (f : α → BlockReport) (b : α) (hb : b ∈ l)
    (h : (f b).is_failure = true) :
    sub_reports_any_failure (l.map f) = true := by
  induction l with
  | nil => cases hb
  | cons x rest ih =>
      simp only [List.map_cons, sub_reports_any_failure, Bool.or_eq_true]
      rcases List.mem_cons.mp hb with hx | hx
      · subst hx; exact Or.inl h
      · exact Or.inr (ih hx)

theorem sub_reports_failed_map_mem_le {α : Type} (l : List α)
    (f : α → BlockReport) (b : α) (hb : b ∈ l) :
    (f b).get_failed ≤ sub_reports_failed (l.map f) := by
  induction l with
  | nil => cases hb
  | cons x rest ih =>
      simp only [List.map_cons, sub_reports_failed]
      rcases List.mem_cons.mp hb with hx | hx
      · subst hx; exact Nat.le_add_right _ _
      · exact Nat.le_trans (ih hx) (Nat.le_add_left _ _)

theorem sub_reports_passed_map_mem_le {α : Type} (l : List α)
    (f : α → BlockReport) (b : α) (hb : b ∈ l) :
    (f b).get_passed ≤ sub_reports_passed (l.map f) := by
  induction l with
  | nil => cases hb
  | cons x rest ih =>
      simp only [List.map_cons, sub_reports_passed]
      rcases List.mem_cons.mp hb with hx | hx
      · subst hx; exact Nat.le_add_right _ _
      · exact Nat.le_trans (ih hx) (Nat.le_add_left _ _)

theorem Context.sizeOf_blocks_lt {T : Type} (c : Context T) :
    sizeOf c.blocks < sizeOf c := by
  cases c with
  | mk h blocks ba be aa ae => simp [Context.blocks]; omega

theorem Context.examples_all_def {T : Type} (P : Example T → Prop)
    (c : Context T) :
    Context.examples_all P c = blocks_examples_all P c.blocks := by
  cases c with
  | mk h blocks ba be aa ae => rfl

theorem Context.examples_any_def {T : Type} (P : Example T → Prop)
    (c : Context T) :
    Context.examples_any P c = blocks_examples_any P c.blocks := by
  cases c with
  | mk h blocks ba be aa ae => rfl

theorem blocks_examples_all_mem {T : Type} {P : Example T → Prop} :
    ∀ {l : List (Block T)}, blocks_examples_all P l →
      ∀ {b : Block T}, b ∈ l → Block.examples_all P b := by
  intro l
  induction l with
  | nil => intro _ b hb; cases hb
  | cons x rest ih =>
      intro h b hb
      rcases List.mem_cons.mp hb with hx | hx
      · subst hx; exact h.1
      · exact ih h.2 hx

theorem blocks_examples_any_mem {T : Type} {P : Example T → Prop} :
    ∀ {l : List (Block T)}, blocks_examples_any P l →
      ∃ b ∈ l, Block.examples_any P b := by
  intro l
  induction l with
  | nil => intro h; cases h
  | cons x rest ih =>
      intro h
      rcases h with hx | hx
      · exact ⟨x, List.mem_cons_self x rest, hx⟩
      · obtain ⟨b, hbm, hbp⟩ := ih hx
        exact ⟨b, List.mem_cons_of_mem x hbm, hbp⟩

end Rspec

namespace Rspec

theorem ExampleResult.get_failed_of_is_failure (r : ExampleResult)
    (h : r.is_failure = true) : r.get_failed = 1 := by
  cases r <;> simp_all [ExampleResult.is_failure, ExampleResult.get_failed]

mutual

theorem visit_block_cfg_irrel {T : Type} (cfg cfg' : Configuration)
    (b : Block T) (env : T) :
    Runner.visit_block cfg b env = Runner.visit_block cfg' b env := by
  cases b with
  | Example ex => rw [Runner.visit_block, Runner.visit_block]
  | Context c =>
      rw [Runner.visit_block, Runner.visit_block,
        visit_context_cfg_irrel cfg cfg' c env]
termination_by sizeOf b
decreasing_by
all_goals simp_wf
all_goals omega

theorem visit_context_cfg_irrel {T : Type} (cfg cfg' : Configuration)
    (c : Context T) (env : T) :
    Runner.visit_context cfg c env = Runner.visit_context cfg' c env := by
  rw [visit_context_eq, visit_context_eq]
  have hb : ∀ b ∈ c.blocks,
      Runner.evaluate_block cfg b c.before_each c.after_each
        (apply_hooks c.before_all env)
      = Runner.evaluate_block cfg' b c.before_each c.after_each
        (apply_hooks c.before_all env) := by
    intro b hbm
    rw [evaluate_block_eq, evaluate_block_eq, visit_block_cfg_irrel cfg cfg' b
      (apply_hooks c.before_each (apply_hooks c.before_all env))]
  have h1 : (c.blocks.map (fun b =>
      (Runner.evaluate_block cfg b c.before_each c.after_each
        (apply_hooks c.before_all env)).report))
      = (c.blocks.map (fun b =>
      (Runner.evaluate_block cfg' b c.before_each c.after_each
        (apply_hooks c.before_all env)).report)) :=
    List.map_congr_left (fun b hbm => by rw [hb b hbm])
  have h2 : (c.blocks.map (fun b =>
      (Runner.evaluate_block cfg b c.before_each c.after_each
        (apply_hooks c.before_all env)).trace))
      = (c.blocks.map (fun b =>
      (Runner.evaluate_block cfg' b c.before_each c.after_each
        (apply_hooks c.before_all env)).trace)) :=
    List.map_congr_left (fun b hbm => by rw [hb b hbm])
  rw [h1, h2]
termination_by sizeOf c
decreasing_by
all_goals simp_wf
have ha := List.sizeOf_lt_of_mem hbm
have hc := Context.sizeOf_blocks_lt c
omega

end

end Rspec

namespace Rspec

mutual

theorem visit_block_all_success {T : Type} (cfg : Configuration) :
    (b : Block T) → (env : T) →
    Block.examples_all
      (fun ex => ∀ e, ex.function e = ExampleResult.success) b →
    (Runner.visit_block cfg b env).report.is_failure = false
    ∧ (Runner.visit_block cfg b env).report.get_failed = 0
  | .Example ex, env, h => by
      have hx : ex.function env = ExampleResult.success := by
        have hall : ∀ e, ex.function e = ExampleResult.success := by
          simpa [Block.examples_all] using h
        exact hall env
      rw [Runner.visit_block]
      simp [Runner.visit_example, BlockReport.is_failure, BlockReport.get_failed,
        ExampleReport.is_failure, ExampleReport.get_failed, hx,
        ExampleResult.is_failure, ExampleResult.get_failed]
  | .Context c, env, h => by
      have hc := visit_context_all_success cfg c env
        (by simpa [Block.examples_all] using h)
      rw [Runner.visit_block]
      simp only [BlockReport.is_failure, BlockReport.get_failed]
      exact ⟨hc.1, hc.2⟩
termination_by b _ _ => sizeOf b
decreasing_by
all_goals simp_wf
all_goals omega

theorem visit_context_all_success {T : Type} (cfg : Configuration)
    (c : Context T) (env : T)
    (h : Context.examples_all
      (fun ex => ∀ e, ex.function e = ExampleResult.success) c) :
    (Runner.visit_context cfg c env).report.is_failure = false
    ∧ (Runner.visit_context cfg c env).report.get_failed = 0 := by
  rw [Context.examples_all_def] at h
  rw [visit_context_eq]
  have key : ∀ b ∈ c.blocks,
      ((Runner.evaluate_block cfg b c.before_each c.after_each
        (apply_hooks c.before_all env)).report.is_failure = false)
      ∧ ((Runner.evaluate_block cfg b c.before_each c.after_each
        (apply_hooks c.before_all env)).report.get_failed = 0) := by
    intro b hbm
    rw [evaluate_block_eq]
    exact visit_block_all_success cfg b
      (apply_hooks c.before_each (apply_hooks c.before_all env))
      (blocks_examples_all_mem h hbm)
  constructor
  · show ContextReport.is_failure (ContextReport.mk _) = false
    rw [ContextReport.is_failure]
    exact sub_reports_any_failure_map_false _ _ (fun b hbm => (key b hbm).1)
  · show ContextReport.get_failed (ContextReport.mk _) = 0
    rw [ContextReport.get_failed]
    exact sub_reports_failed_map_zero _ _ (fun b hbm => (key b hbm).2)
termination_by sizeOf c
decreasing_by
all_goals simp_wf
have ha := List.sizeOf_lt_of_mem hbm
have hc := Context.sizeOf_blocks_lt c
omega

end

mutual

theorem visit_block_any_failure {T : Type} (cfg : Configuration) :
    (b : Block T) → (env : T) →
    Block.examples_any
      (fun ex => ∀ e, (ex.function e).is_failure = true) b →
    (Runner.visit_block cfg b env).report.is_failure = true
    ∧ 1 ≤ (Runner.visit_block cfg b env).report.get_failed
  | .Example ex, env, h => by
      have hx : (ex.function env).is_failure = true := by
        have hall : ∀ e, (ex.function e).is_failure = true := by
          simpa [Block.examples_any] using h
        exact hall env
      rw [Runner.visit_block]
      simp only [Runner.visit_example, BlockReport.is_failure,
        BlockReport.get_failed, ExampleReport.is_failure,
        ExampleReport.get_failed]
      exact ⟨hx, by rw [ExampleResult.get_failed_of_is_failure _ hx]⟩
  | .Context c, env, h => by
      have hc := visit_context_any_failure cfg c env
        (by simpa [Block.examples_any] using h)
      rw [Runner.visit_block]
      simp only [BlockReport.is_failure, BlockReport.get_failed]
      exact ⟨hc.1, hc.2⟩
termination_by b _ _ => sizeOf b
decreasing_by
all_goals simp_wf
all_goals omega

theorem visit_context_any_failure {T : Type} (cfg : Configuration)
    (c : Context T) (env : T)
    (h : Context.examples_any
      (fun ex => ∀ e, (ex.function e).is_failure = true) c) :
    (Runner.visit_context cfg c env).report.is_failure = true
    ∧ 1 ≤ (Runner.visit_context cfg c env).report.get_failed := by
  rw [Context.examples_any_def] at h
  obtain ⟨b, hbm, hbp⟩ := blocks_examples_any_mem h
  rw [visit_context_eq]
  have key : ((Runner.evaluate_block cfg b c.before_each c.after_each
        (apply_hooks c.before_all env)).report.is_failure = true)
      ∧ 1 ≤ (Runner.evaluate_block cfg b c.before_each c.after_each
        (apply_hooks c.before_all env)).report.get_failed := by
    rw [evaluate_block_eq]
    exact visit_block_any_failure cfg b
      (apply_hooks c.before_each (apply_hooks c.before_all env)) hbp
  constructor
  · show ContextReport.is_failure (ContextReport.mk _) = true
    rw [ContextReport.is_failure]
    exact sub_reports_any_failure_map_mem _ _ b hbm key.1
  · show 1 ≤ ContextReport.get_failed (ContextReport.mk _)
    rw [ContextReport.get_failed]
    exact Nat.le_trans key.2 (sub_reports_failed_map_mem_le c.blocks
      (fun b => (Runner.evaluate_block cfg b c.before_each c.after_each
        (apply_hooks c.before_all env)).report) b hbm)
termination_by sizeOf c
decreasing_by
all_goals simp_wf
have ha := List.sizeOf_lt_of_mem hbm
have hc := Context.sizeOf_blocks_lt c
omega

end

theorem visit_context_passed_of_member {T : Type} (cfg : Configuration)
    (c : Context T) (env : T) (i : Nat) (ex : Example T)
    (hb : c.blocks[i]? = some (Block.Example ex))
    (hs : ∀ e, ex.function e = ExampleResult.success) :
    1 ≤ (Runner.visit_context cfg c env).report.get_passed := by
  have hmem : Block.Example ex ∈ c.blocks := by
    have := List.getElem?_eq_some.mp hb
    obtain ⟨hlt, hget⟩ := this
    exact hget ▸ List.getElem_mem hlt
  rw [visit_context_eq]
  have key : (Runner.evaluate_block cfg (Block.Example ex) c.before_each
      c.after_each (apply_hooks c.before_all env)).report.get_passed = 1 := by
    rw [evaluate_block_eq, Runner.visit_block]
    simp [Runner.visit_example, BlockReport.get_passed,
      ExampleReport.get_passed, hs _, ExampleResult.get_passed]
  show 1 ≤ ContextReport.get_passed (ContextReport.mk _)
  rw [ContextReport.get_passed]
  exact key ▸ sub_reports_passed_map_mem_le c.blocks
    (fun b => (Runner.evaluate_block cfg b c.before_each c.after_each
      (apply_hooks c.before_all env)).report) (Block.Example ex) hmem

mutual

theorem block_report_failure_iff_descendant (r : BlockReport) :
    r.is_failure = true ↔ r.has_failed_example := by
  cases r with
  | Context h rep =>
      rw [BlockReport.is_failure, BlockReport.has_failed_example]
      exact context_report_failure_iff_descendant rep
  | Example h rep =>
      rw [BlockReport.is_failure, BlockReport.has_failed_example,
        ExampleReport.is_failure]
termination_by sizeOf r
decreasing_by
all_goals simp_wf
all_goals omega

theorem context_report_failure_iff_descendant (rep : ContextReport) :
    rep.is_failure = true ↔ rep.has_failed_example := by
  cases rep with
  | mk subs =>
      rw [ContextReport.is_failure, ContextReport.has_failed_example]
      exact sub_reports_failure_iff_descendant subs
termination_by sizeOf rep
decreasing_by
all_goals simp_wf
all_goals omega

theorem sub_reports_failure_iff_descendant (l : List BlockReport) :
    sub_reports_any_failure l = true ↔ sub_reports_has_failed_example l := by
  cases l with
  | nil => simp [sub_reports_any_failure, sub_reports_has_failed_example]
  | cons r rest =>
      rw [sub_reports_any_failure, sub_reports_has_failed_example]
      rw [Bool.or_eq_true]
      exact or_congr (block_report_failure_iff_descendant r)
        (sub_reports_failure_iff_descendant rest)
termination_by sizeOf l
decreasing_by
all_goals simp_wf
all_goals omega

end

theorem run_snd_configuration {T : Type} (r : Runner) (s : Suite T) :
    (Runner.run r s).2.configuration = r.configuration := rfl

theorem run_all_reports {T : Type} :
    ∀ (suites : List (Suite T)) (r : Runner),
    (Runner.run_all r suites).1
      = suites.map (fun s =>
          (Runner.visit_suite r.configuration s s.environment).report) := by
  intro suites
  induction suites with
  | nil => intro r; rfl
  | cons s rest ih =>
      intro r
      simp only [Runner.run_all, List.map_cons]
      rw [ih]
      rfl

theorem run_all_configuration {T : Type} :
    ∀ (suites : List (Suite T)) (r : Runner),
    (Runner.run_all r suites).2.configuration = r.configuration := by
  intro suites
  induction suites with
  | nil => intro r; rfl
  | cons s rest ih =>
      intro r
      simp only [Runner.run_all]
      rw [ih]
      rfl

theorem run_all_should_exit {T : Type} :
    ∀ (suites : List (Suite T)) (r : Runner),
    (Runner.run_all r suites).2.should_exit
      = (r.should_exit
          || (Runner.run_all r suites).1.any (fun rep => rep.is_failure)) := by
  intro suites
  induction suites with
  | nil => intro r; simp [Runner.run_all]
  | cons s rest ih =>
      intro r
      simp only [Runner.run_all, List.any_cons]
      rw [ih]
      simp [Runner.run, Bool.or_assoc]

end Rspec

namespace Rspec

/-- C7 counterexample: the source message for a `false` body wraps the
condition text in backquotes, so the exact message stated by the claim
(without backquotes) is not produced. -/
theorem C7_counterexample :
    ExampleResult.from_bool false
      ≠ ExampleResult.failure
          (some "assertion failed: expected condition to be true") := by
  decide

/-- C7 (amended): example return-value normalization follows the rule table;
unit and `true` map to `Success`, `false` maps to `Failure` with the fixed
message `assertion failed: \x60expected condition to be true\x60` (backquotes
included), and a result-like value maps `Ok` to `Success` and `Err(e)` to
`Failure(Some(debug-format(e)))`. -/
theorem C7_result_normalization {A E : Type} (debug_format : E → String)
    (a : A) (e : E) :
    ExampleResult.from_unit () = ExampleResult.success
    ∧ ExampleResult.from_bool true = ExampleResult.success
    ∧ ExampleResult.from_bool false
        = ExampleResult.failure
            (some "assertion failed: `expected condition to be true`")
    ∧ ExampleResult.from_result debug_format (Except.ok a)
        = ExampleResult.success
    ∧ ExampleResult.from_result debug_format (Except.error e : Except E A)
        = ExampleResult.failure (some (debug_format e)) :=
  ⟨rfl, rfl, rfl, rfl, rfl⟩

/-- C9: an `Ignored` example report is neither a success nor a failure, so
`is_success` is not in general the negation of `is_failure`; only the
three-way split passed/failed/ignored is exhaustive (the three counters of
any example report sum to 1). -/
theorem C9_ignored_neither_success_nor_failure :
    (ExampleReport.mk ExampleResult.ignored).is_success = false
    ∧ (ExampleReport.mk ExampleResult.ignored).is_failure = false
    ∧ ¬ (∀ (r : ExampleReport), r.is_success = !r.is_failure)
    ∧ (∀ (r : ExampleReport),
        r.get_passed + r.get_failed + r.get_ignored = 1) := by
  refine ⟨rfl, rfl, ?_, ?_⟩
  · intro hall
    have h := hall (ExampleReport.mk ExampleResult.ignored)
    simp [ExampleReport.is_success, ExampleReport.is_failure,
      ExampleResult.is_success, ExampleResult.is_failure] at h
  · intro r
    rcases r with ⟨res⟩
    cases res <;> rfl

/-- C3 counterexample: a panic whose payload is neither a `&str` nor a
`String` is converted to `Failure(None)` — no generic fallback message is
substituted, contradicting the claim that the message is always `Some`. -/
theorem C3_counterexample :
    example_internal_function
      (fun _ : Unit => PanicOutcome.panicked PanicPayload.other) ()
      = ExampleResult.failure none
    ∧ ¬ ∃ m : String,
        example_internal_function
          (fun _ : Unit => PanicOutcome.panicked PanicPayload.other) ()
          = ExampleResult.failure (some m) := by
  constructor
  · rfl
  · rintro ⟨m, hm⟩
    simp [example_internal_function] at hm

/-- C3 (amended): the stored example function always returns normally; a
panic is converted at the example boundary into a `Failure` whose message is
`Some(thread panicked at {:?}.)` of the payload text when the payload is a
`&str` or a `String`, and `None` (no message at all) when the payload type
is unrecognized. -/
theorem C3_panic_conversion {T : Type} (body : T → PanicOutcome ExampleResult)
    (env : T) :
    (∀ (r : ExampleResult), body env = PanicOutcome.ok r →
        example_internal_function body env = r)
    ∧ (∀ (s : String),
        body env = PanicOutcome.panicked (PanicPayload.strPayload s) →
        example_internal_function body env
          = ExampleResult.failure
              (some ("thread panicked at '" ++ rust_debug_str s ++ "'.")))
    ∧ (∀ (s : String),
        body env = PanicOutcome.panicked (PanicPayload.stringPayload s) →
        example_internal_function body env
          = ExampleResult.failure
              (some ("thread panicked at '" ++ rust_debug_str s ++ "'.")))
    ∧ (body env = PanicOutcome.panicked PanicPayload.other →
        example_internal_function body env = ExampleResult.failure none)
    ∧ (∀ (p : PanicPayload), body env = PanicOutcome.panicked p →
        (example_internal_function body env).is_failure = true) := by
  refine ⟨?_, ?_, ?_, ?_, ?_⟩
  · intro r h
    simp [example_internal_function, h]
  · intro s h
    simp [example_internal_function, h]
  · intro s h
    simp [example_internal_function, h]
  · intro h
    simp [example_internal_function, h]
  · intro p h
    cases p <;> simp [example_internal_function, h, ExampleResult.is_failure]

/-- C3 witness: a panicking body with a string payload, at a concrete
input. -/
theorem C3_witness :
    example_internal_function
      (fun _ : Unit =>
        PanicOutcome.panicked (PanicPayload.strPayload "boom")) ()
      = ExampleResult.failure (some "thread panicked at '\"boom\"'.") := by
  have h := (C3_panic_conversion
    (fun _ : Unit =>
      PanicOutcome.panicked (PanicPayload.strPayload "boom")) ()).2.1
    "boom" rfl
  rw [h]
  rfl

end Rspec

namespace Rspec

theorem sum_map_add3 {α : Type} (l : List α) (f g k : α → Nat) :
    (l.map (fun x => f x + g x + k x)).sum
      = (l.map f).sum + (l.map g).sum + (l.map k).sum := by
  induction l with
  | nil => rfl
  | cons x rest ih => simp [ih]; omega

/-- C2: composite report counters satisfy the recursive aggregation law
(each counter of a context report is the sum of that counter over its
`sub_reports`, block and suite reports delegate to their wrapped report),
the base case is a single example report contributing `(1,0,0)`, `(0,1,0)`
or `(0,0,1)`, and `is_failure` of any composite report holds iff some
descendant example reports a `Failure`. -/
theorem C2_report_aggregation :
    (∀ (r : ContextReport),
        r.get_passed = (r.sub_reports.map BlockReport.get_passed).sum
        ∧ r.get_failed = (r.sub_reports.map BlockReport.get_failed).sum
        ∧ r.get_ignored = (r.sub_reports.map BlockReport.get_ignored).sum
        ∧ r.get_passed + r.get_failed + r.get_ignored
            = (r.sub_reports.map
                (fun s => s.get_passed + s.get_failed + s.get_ignored)).sum)
    ∧ (∀ (h : Option ContextHeader) (rep : ContextReport),
        (BlockReport.Context h rep).get_passed = rep.get_passed
        ∧ (BlockReport.Context h rep).get_failed = rep.get_failed
        ∧ (BlockReport.Context h rep).get_ignored = rep.get_ignored)
    ∧ (∀ (h : ExampleHeader) (er : ExampleReport),
        (BlockReport.Example h er).get_passed = er.get_passed
        ∧ (BlockReport.Example h er).get_failed = er.get_failed
        ∧ (BlockReport.Example h er).get_ignored = er.get_ignored)
    ∧ (∀ (s : SuiteReport),
        s.get_passed = s.context.get_passed
        ∧ s.get_failed = s.context.get_failed
        ∧ s.get_ignored = s.context.get_ignored)
    ∧ ((ExampleReport.mk ExampleResult.success).get_passed = 1
        ∧ (ExampleReport.mk ExampleResult.success).get_failed = 0
        ∧ (ExampleReport.mk ExampleResult.success).get_ignored = 0)
    ∧ (∀ (m : Option String),
        (ExampleReport.mk (ExampleResult.failure m)).get_passed = 0
        ∧ (ExampleReport.mk (ExampleResult.failure m)).get_failed = 1
        ∧ (ExampleReport.mk (ExampleResult.failure m)).get_ignored = 0)
    ∧ ((ExampleReport.mk ExampleResult.ignored).get_passed = 0
        ∧ (ExampleReport.mk ExampleResult.ignored).get_failed = 0
        ∧ (ExampleReport.mk ExampleResult.ignored).get_ignored = 1)
    ∧ (∀ (r : BlockReport), r.is_failure = true ↔ r.has_failed_example)
    ∧ (∀ (r : ContextReport), r.is_failure = true ↔ r.has_failed_example)
    ∧ (∀ (s : SuiteReport),
        s.is_failure = true ↔ s.context.has_failed_example) := by
  have hctx : ∀ (r : ContextReport),
      r.get_passed = (r.sub_reports.map BlockReport.get_passed).sum
      ∧ r.get_failed = (r.sub_reports.map BlockReport.get_failed).sum
      ∧ r.get_ignored = (r.sub_reports.map BlockReport.get_ignored).sum := by
    intro r
    rcases r with ⟨subs⟩
    refine ⟨?_, ?_, ?_⟩
    · rw [ContextReport.get_passed, ContextReport.sub_reports,
        sub_reports_passed_eq]
    · rw [ContextReport.get_failed, ContextReport.sub_reports,
        sub_reports_failed_eq]
    · rw [ContextReport.get_ignored, ContextReport.sub_reports,
        sub_reports_ignored_eq]
  refine ⟨?_, ?_, ?_, ?_, ⟨rfl, rfl, rfl⟩, fun m => ⟨rfl, rfl, rfl⟩,
    ⟨rfl, rfl, rfl⟩, ?_, ?_, ?_⟩
  · intro r
    obtain ⟨h1, h2, h3⟩ := hctx r
    refine ⟨h1, h2, h3, ?_⟩
    rw [h1, h2, h3, sum_map_add3]
  · intro h rep
    exact ⟨rfl, rfl, rfl⟩
  · intro h er
    exact ⟨rfl, rfl, rfl⟩
  · intro s
    exact ⟨rfl, rfl, rfl⟩
  · exact block_report_failure_iff_descendant
  · exact context_report_failure_iff_descendant
  · intro s
    exact context_report_failure_iff_descendant s.context

/-- C10: when a child block is a nested context, the dispatch recurses on a
second clone, so the caller's per-block environment is returned unchanged;
consequently the `after_each` hooks of the parent run on the per-block copy
exactly as it was after `before_each`, untouched by the nested context's
`before_all`/`after_all` mutations. -/
theorem C10_nested_context_frame {T : Type} (cfg : Configuration)
    (c : Context T) (b_each a_each : List (T → T)) (env : T) :
    ((Runner.visit_block cfg (Block.Context c) env).environment = env)
    ∧ (Runner.evaluate_block cfg (Block.Context c) b_each a_each env
        = { report := BlockReport.Context c.header
              (Runner.visit_context cfg c (apply_hooks b_each env)).report,
            trace := spec_hook_calls HookKind.before_each b_each env
              ++ (Runner.visit_context cfg c (apply_hooks b_each env)).trace
              ++ spec_hook_calls HookKind.after_each a_each
                   (apply_hooks b_each env) }) := by
  constructor
  · exact visit_block_environment cfg (Block.Context c) env
  · rw [evaluate_block_eq, Runner.visit_block]

end Rspec

namespace Rspec

theorem visit_context_sub_reports_getElem {T : Type} (cfg : Configuration)
    (c : Context T) (env : T) (i : Nat) :
    (Runner.visit_context cfg c env).report.sub_reports[i]?
      = (c.blocks[i]?).map (fun b =>
          (Runner.evaluate_block cfg b c.before_each c.after_each
            (apply_hooks c.before_all env)).report) := by
  rw [visit_context_eq]
  show (ContextReport.mk _).sub_reports[i]? = _
  rw [ContextReport.sub_reports]
  exact List.getElem?_map ..

/-- C4: every child block of a context is evaluated on the same fresh copy
of the parent's environment, obtained from the parent's value after the
`before_all` hooks and fed to that child's own `before_each` hooks; hence
the `i`-th sub-report depends only on the `i`-th block (given the parent's
hooks and environment), and no sibling's mutation is observable by
another. -/
theorem C4_branch_isolation {T : Type} (cfg : Configuration) (c : Context T)
    (env : T) (i : Nat) :
    ((Runner.visit_context cfg c env).report.sub_reports[i]?
      = (c.blocks[i]?).map (fun b =>
          (Runner.visit_block cfg b
            (apply_hooks c.before_each (apply_hooks c.before_all env))).report))
    ∧ (∀ (c₂ : Context T),
        c₂.before_all = c.before_all → c₂.before_each = c.before_each →
        c₂.after_each = c.after_each → c₂.blocks[i]? = c.blocks[i]? →
        (Runner.visit_context cfg c₂ env).report.sub_reports[i]?
          = (Runner.visit_context cfg c env).report.sub_reports[i]?) := by
  have key : ∀ (c' : Context T),
      (Runner.visit_context cfg c' env).report.sub_reports[i]?
        = (c'.blocks[i]?).map (fun b =>
            (Runner.evaluate_block cfg b c'.before_each c'.after_each
              (apply_hooks c'.before_all env)).report) :=
    fun c' => visit_context_sub_reports_getElem cfg c' env i
  constructor
  · rw [key c]
    have hfg : (fun b => (Runner.evaluate_block cfg b c.before_each
          c.after_each (apply_hooks c.before_all env)).report)
        = (fun b => (Runner.visit_block cfg b
            (apply_hooks c.before_each (apply_hooks c.before_all env))).report) :=
      funext fun b => by rw [evaluate_block_eq]
    rw [hfg]
  · intro c₂ hba hbe hae hbl
    rw [key c₂, key c, hba, hbe, hae, hbl]

/-- C4 witness: replacing a failing first sibling by a passing one leaves
the second sibling's report unchanged, at a concrete context. -/
theorem C4_branch_isolation_witness :
    (Runner.visit_context Configuration.default witness_context_alt
        0).report.sub_reports[1]?
      = (Runner.visit_context Configuration.default witness_context_mixed
          0).report.sub_reports[1]? := by
  have h := (C4_branch_isolation Configuration.default witness_context_mixed
    0 1).2 witness_context_alt rfl rfl rfl rfl
  exact h

/-- C5: within one visited context, the observable call trace is exactly:
every `before_all` hook once, in declaration order, on the incoming
environment; then, per child block in declaration order, every
`before_each` hook once on the per-block copy, the child's own dispatch,
then every `after_each` hook once on that copy; and finally every
`after_all` hook once, in declaration order, applied to the context's own
(uncloned) environment after `before_all`; the resulting environment is the
`after_all`-image of the `before_all`-image of the input — all independent
of the number of descendant examples and of the `parallel` setting. -/
theorem C5_hook_cardinality_and_order {T : Type} (cfg : Configuration)
    (c : Context T) (env : T) :
    ((Runner.visit_context cfg c env).trace
      = spec_hook_calls HookKind.before_all c.before_all env
        ++ (c.blocks.map (fun b =>
            spec_hook_calls HookKind.before_each c.before_each
              (apply_hooks c.before_all env)
            ++ (Runner.visit_block cfg b
                (apply_hooks c.before_each (apply_hooks c.before_all env))).trace
            ++ spec_hook_calls HookKind.after_each c.after_each
                (apply_hooks c.before_each (apply_hooks c.before_all env)))).join
        ++ spec_hook_calls HookKind.after_all c.after_all
            (apply_hooks c.before_all env))
    ∧ ((Runner.visit_context cfg c env).environment
        = apply_hooks c.after_all (apply_hooks c.before_all env)) := by
  rw [visit_context_eq]
  constructor
  · show spec_hook_calls HookKind.before_all c.before_all env ++ _ ++ _ = _
    have hfg : (fun b => (Runner.evaluate_block cfg b c.before_each
          c.after_each (apply_hooks c.before_all env)).trace)
        = (fun b =>
            spec_hook_calls HookKind.before_each c.before_each
              (apply_hooks c.before_all env)
            ++ (Runner.visit_block cfg b
                (apply_hooks c.before_each (apply_hooks c.before_all env))).trace
            ++ spec_hook_calls HookKind.after_each c.after_each
                (apply_hooks c.before_each (apply_hooks c.before_all env))) :=
      funext fun b => by rw [evaluate_block_eq]
    rw [hfg]
  · rfl

/-- C6: for a fixed tree the parallel and the serial block-evaluation
functions are extensionally equal, a whole run produces the same report
under any two configurations (in particular `parallel = true` versus
`false`, hence identical passed/failed/ignored counts), and in both modes
the `i`-th sub-report of a context report is the report of the `i`-th block
in declaration order. -/
theorem C6_parallel_serial_equivalence {T : Type} (cfg cfg' : Configuration)
    (l : List (Block T)) (b_each a_each : List (T → T)) (env : T)
    (suite : Suite T) (c : Context T) (i : Nat) :
    (Runner.evaluate_blocks_parallel cfg l b_each a_each env
      = Runner.evaluate_blocks_serial cfg l b_each a_each env)
    ∧ ((Runner.run (Runner.new cfg) suite).1
        = (Runner.run (Runner.new cfg') suite).1)
    ∧ ((Runner.visit_context cfg c env).report.sub_reports[i]?
        = (c.blocks[i]?).map (fun b =>
            (Runner.evaluate_block cfg b c.before_each c.after_each
              (apply_hooks c.before_all env)).report)) := by
  refine ⟨evaluate_blocks_parallel_eq_serial cfg l b_each a_each env, ?_,
    visit_context_sub_reports_getElem cfg c env i⟩
  have hrun : ∀ (k : Configuration),
      (Runner.run (Runner.new k) suite).1
        = { header := suite.header,
            context := (Runner.visit_context k suite.context
              suite.environment).report } := fun k => rfl
  rw [hrun cfg, hrun cfg',
    visit_context_cfg_irrel cfg cfg' suite.context suite.environment]

end Rspec

namespace Rspec

theorem Context.count_examples_def {T : Type} (p : Example T → Bool)
    (c : Context T) :
    Context.count_examples p c = blocks_count_examples p c.blocks := by
  cases c with
  | mk h blocks ba be aa ae => rfl

theorem Context.num_examples_def {T : Type} (c : Context T) :
    Context.num_examples c = blocks_num_examples c.blocks := by
  cases c with
  | mk h blocks ba be aa ae => rfl

theorem blocks_count_le_sub_reports_passed {T : Type}
    (p : Example T → Bool) (f : Block T → BlockReport) :
    ∀ (l : List (Block T)),
    (∀ b ∈ l, Block.count_examples p b ≤ (f b).get_passed) →
    blocks_count_examples p l ≤ sub_reports_passed (l.map f) := by
  intro l
  induction l with
  | nil => intro _; exact Nat.le_refl 0
  | cons b rest ih =>
      intro h
      rw [List.map_cons, blocks_count_examples, sub_reports_passed]
      exact Nat.add_le_add (h b (List.mem_cons_self b rest))
        (ih (fun x hx => h x (List.mem_cons_of_mem b hx)))

theorem blocks_counts_total_map {T : Type} (f : Block T → BlockReport) :
    ∀ (l : List (Block T)),
    (∀ b ∈ l, (f b).get_passed + (f b).get_failed + (f b).get_ignored
      = Block.num_examples b) →
    sub_reports_passed (l.map f) + sub_reports_failed (l.map f)
      + sub_reports_ignored (l.map f) = blocks_num_examples l := by
  intro l
  induction l with
  | nil => intro _; rfl
  | cons b rest ih =>
      intro h
      rw [List.map_cons, blocks_num_examples, sub_reports_passed,
        sub_reports_failed, sub_reports_ignored]
      have h1 := h b (List.mem_cons_self b rest)
      have h2 := ih (fun x hx => h x (List.mem_cons_of_mem b hx))
      omega

mutual

theorem visit_block_passed_count {T : Type} (cfg : Configuration)
    (p : Example T → Bool)
    (hp : ∀ ex, p ex = true → ∀ e, ex.function e = ExampleResult.success) :
    (b : Block T) → (env : T) →
    Block.count_examples p b ≤ (Runner.visit_block cfg b env).report.get_passed
  | .Example ex, env => by
      by_cases hpe : p ex = true
      · have hs := hp ex hpe env
        rw [Runner.visit_block]
        simp [Block.count_examples, hpe, Runner.visit_example,
          BlockReport.get_passed, ExampleReport.get_passed, hs,
          ExampleResult.get_passed]
      · rw [Block.count_examples]
        rw [if_neg hpe]
        exact Nat.zero_le _
  | .Context c, env => by
      have hc := visit_context_passed_count cfg p hp c env
      rw [Runner.visit_block]
      rw [Block.count_examples]
      exact hc
termination_by b _ => sizeOf b
decreasing_by
all_goals simp_wf
all_goals omega

theorem visit_context_passed_count {T : Type} (cfg : Configuration)
    (p : Example T → Bool)
    (hp : ∀ ex, p ex = true → ∀ e, ex.function e = ExampleResult.success)
    (c : Context T) (env : T) :
    Context.count_examples p c
      ≤ (Runner.visit_context cfg c env).report.get_passed := by
  rw [Context.count_examples_def, visit_context_eq]
  show blocks_count_examples p c.blocks
    ≤ ContextReport.get_passed (ContextReport.mk _)
  rw [ContextReport.get_passed]
  refine blocks_count_le_sub_reports_passed p _ c.blocks ?_
  intro b hbm
  rw [evaluate_block_eq]
  exact visit_block_passed_count cfg p hp b
    (apply_hooks c.before_each (apply_hooks c.before_all env))
termination_by sizeOf c
decreasing_by
all_goals simp_wf
have ha := List.sizeOf_lt_of_mem hbm
have hc := Context.sizeOf_blocks_lt c
omega

end

mutual

theorem visit_block_counts_total {T : Type} (cfg : Configuration) :
    (b : Block T) → (env : T) →
    (Runner.visit_block cfg b env).report.get_passed
      + (Runner.visit_block cfg b env).report.get_failed
      + (Runner.visit_block cfg b env).report.get_ignored
      = Block.num_examples b
  | .Example ex, env => by
      rw [Runner.visit_block, Block.num_examples]
      show (ExampleReport.mk (ex.function env)).get_passed
        + (ExampleReport.mk (ex.function env)).get_failed
        + (ExampleReport.mk (ex.function env)).get_ignored = 1
      cases ex.function env <;> rfl
  | .Context c, env => by
      have hc := visit_context_counts_total cfg c env
      rw [Runner.visit_block, Block.num_examples]
      exact hc
termination_by b _ => sizeOf b
decreasing_by
all_goals simp_wf
all_goals omega

theorem visit_context_counts_total {T : Type} (cfg : Configuration)
    (c : Context T) (env : T) :
    (Runner.visit_context cfg c env).report.get_passed
      + (Runner.visit_context cfg c env).report.get_failed
      + (Runner.visit_context cfg c env).report.get_ignored
      = Context.num_examples c := by
  rw [Context.num_examples_def, visit_context_eq]
  show ContextReport.get_passed (ContextReport.mk _)
      + ContextReport.get_failed (ContextReport.mk _)
      + ContextReport.get_ignored (ContextReport.mk _)
    = blocks_num_examples c.blocks
  rw [ContextReport.get_passed, ContextReport.get_failed,
    ContextReport.get_ignored]
  refine blocks_counts_total_map _ c.blocks ?_
  intro b hbm
  rw [evaluate_block_eq]
  exact visit_block_counts_total cfg b
    (apply_hooks c.before_each (apply_hooks c.before_all env))
termination_by sizeOf c
decreasing_by
all_goals simp_wf
have ha := List.sizeOf_lt_of_mem hbm
have hc := Context.sizeOf_blocks_lt c
omega

end

/-- C1: a run over a suite all of whose example bodies return `Success`
reports no failure and zero failed; a run over a suite containing an
example whose body returns `Failure` (which is also what panic conversion
produces) reports `is_failure` and at least one failed; and passing
siblings are never suppressed: every example anywhere in the tree whose
body returns `Success` contributes 1 to `get_passed` (any set of
always-succeeding examples is a lower bound on the passed count), while
the three counters together account for every example exactly once. -/
theorem C1_run_failure_closure {T : Type} (runner : Runner)
    (suite : Suite T) :
    (Context.examples_all
        (fun ex => ∀ e, ex.function e = ExampleResult.success) suite.context →
      (Runner.run runner suite).1.is_failure = false
      ∧ (Runner.run runner suite).1.get_failed = 0)
    ∧ (Context.examples_any
        (fun ex => ∀ e, (ex.function e).is_failure = true) suite.context →
      (Runner.run runner suite).1.is_failure = true
      ∧ 1 ≤ (Runner.run runner suite).1.get_failed)
    ∧ (∀ (p : Example T → Bool),
        (∀ ex, p ex = true → ∀ e, ex.function e = ExampleResult.success) →
        Context.count_examples p suite.context
          ≤ (Runner.run runner suite).1.get_passed)
    ∧ ((Runner.run runner suite).1.get_passed
        + (Runner.run runner suite).1.get_failed
        + (Runner.run runner suite).1.get_ignored
        = Context.num_examples suite.context) := by
  have hrep : (Runner.run runner suite).1
      = { header := suite.header,
          context := (Runner.visit_context runner.configuration suite.context
            suite.environment).report } := rfl
  refine ⟨?_, ?_, ?_, ?_⟩
  · intro h
    have hc := visit_context_all_success runner.configuration suite.context
      suite.environment h
    rw [hrep]
    exact ⟨hc.1, hc.2⟩
  · intro h
    have hc := visit_context_any_failure runner.configuration suite.context
      suite.environment h
    rw [hrep]
    exact ⟨hc.1, hc.2⟩
  · intro p hp
    have hc := visit_context_passed_count runner.configuration p hp
      suite.context suite.environment
    rw [hrep]
    exact hc
  · have hc := visit_context_counts_total runner.configuration suite.context
      suite.environment
    rw [hrep]
    exact hc

/-- C1 witness: a concrete suite with a failing example next to a nested
context holding a passing example reports a failure, at least one failed
example, at least one passed example (the nested passing sibling counts),
and the counters account for both examples. -/
theorem C1_run_failure_closure_witness :
    (Runner.run (Runner.new Configuration.default)
        witness_suite_nested_u).1.is_failure = true
    ∧ 1 ≤ (Runner.run (Runner.new Configuration.default)
        witness_suite_nested_u).1.get_failed
    ∧ 1 ≤ (Runner.run (Runner.new Configuration.default)
        witness_suite_nested_u).1.get_passed
    ∧ (Runner.run (Runner.new Configuration.default)
        witness_suite_nested_u).1.get_passed
      + (Runner.run (Runner.new Configuration.default)
          witness_suite_nested_u).1.get_failed
      + (Runner.run (Runner.new Configuration.default)
          witness_suite_nested_u).1.get_ignored = 2 := by
  have hth := C1_run_failure_closure (Runner.new Configuration.default)
    witness_suite_nested_u
  have hany : Context.examples_any
      (fun ex => ∀ e, (ex.function e).is_failure = true)
      witness_suite_nested_u.context := by
    show Context.examples_any _ witness_context_nested_u
    rw [witness_context_nested_u, Context.examples_any, blocks_examples_any]
    left
    rw [Block.examples_any]
    intro e
    rfl
  have hp : ∀ (ex : Example Unit),
      (ex.function ()).is_success = true →
      ∀ e, ex.function e = ExampleResult.success := by
    intro ex hpe e
    cases e
    cases hfe : ex.function () with
    | success => rfl
    | failure m =>
        rw [hfe] at hpe
        simp [ExampleResult.is_success] at hpe
    | ignored =>
        rw [hfe] at hpe
        simp [ExampleResult.is_success] at hpe
  have hcount : Context.count_examples
      (fun ex => (ex.function ()).is_success)
      witness_suite_nested_u.context = 1 := by
    show Context.count_examples _ witness_context_nested_u = 1
    simp [witness_context_nested_u, Context.count_examples,
      blocks_count_examples, Block.count_examples, witness_example_fail_u,
      witness_example_ok_u, ExampleResult.is_success]
  have hnum : Context.num_examples witness_suite_nested_u.context = 2 := by
    show Context.num_examples witness_context_nested_u = 2
    simp [witness_context_nested_u, Context.num_examples,
      blocks_num_examples, Block.num_examples]
  have h2 := hth.2.1 hany
  have h3 := hth.2.2.1 (fun ex => (ex.function ()).is_success) hp
  rw [hcount] at h3
  have h4 := hth.2.2.2
  rw [hnum] at h4
  exact ⟨h2.1, h2.2, h3, h4⟩

/-- C8: over any sequence of runs of one runner, the drop-time process exit
(with the fixed status 101) happens iff `exit_on_failure` is configured and
some run's report was a failure; when no run failed or `exit_on_failure` is
off, no exit happens; and the reports themselves are produced unchanged by
either flag. -/
theorem C8_exit_on_failure {T : Type} (cfg : Configuration)
    (suites : List (Suite T)) :
    (Runner.drop_exit_code (Runner.run_all (Runner.new cfg) suites).2
        = some 101
      ↔ (cfg.exit_on_failure = true
          ∧ ∃ rep ∈ (Runner.run_all (Runner.new cfg) suites).1,
              rep.is_failure = true))
    ∧ ((cfg.exit_on_failure = false
        ∨ (∀ rep ∈ (Runner.run_all (Runner.new cfg) suites).1,
            rep.is_failure = false)) →
      Runner.drop_exit_code (Runner.run_all (Runner.new cfg) suites).2 = none)
    ∧ ((Runner.run_all (Runner.new cfg) suites).1
        = suites.map (fun s =>
            (Runner.visit_suite cfg s s.environment).report)) := by
  have hcfg : (Runner.run_all (Runner.new cfg) suites).2.configuration = cfg :=
    run_all_configuration suites (Runner.new cfg)
  have hexit : (Runner.run_all (Runner.new cfg) suites).2.should_exit
      = (Runner.run_all (Runner.new cfg) suites).1.any
          (fun rep => rep.is_failure) := by
    rw [run_all_should_exit suites (Runner.new cfg)]
    rfl
  have hreports := run_all_reports suites (Runner.new cfg)
  refine ⟨?_, ?_, hreports⟩
  · constructor
    · intro hsome
      rw [Runner.drop_exit_code, hcfg, hexit] at hsome
      by_cases hcond : (cfg.exit_on_failure
          && (Runner.run_all (Runner.new cfg) suites).1.any
            (fun rep => rep.is_failure)) = true
      · obtain ⟨he, ha⟩ := Bool.and_eq_true_iff.mp hcond
        exact ⟨he, by simpa using List.any_eq_true.mp ha⟩
      · rw [if_neg hcond] at hsome
        cases hsome
    · rintro ⟨he, rep, hm, hf⟩
      rw [Runner.drop_exit_code, hcfg, hexit]
      have ha : (Runner.run_all (Runner.new cfg) suites).1.any
          (fun rep => rep.is_failure) = true :=
        List.any_eq_true.mpr ⟨rep, hm, hf⟩
      rw [he, ha]
      rfl
  · intro h
    rw [Runner.drop_exit_code, hcfg, hexit]
    rcases h with hf | hnone
    · rw [hf]
      rfl
    · have : (Runner.run_all (Runner.new cfg) suites).1.any
          (fun rep => rep.is_failure) = false := by
        rw [List.any_eq_false]
        intro rep hm
        rw [hnone rep hm]
        simp
      rw [this]
      simp

/-- C8 witness: with `exit_on_failure` disabled, even a failing run
performs no exit. -/
theorem C8_exit_on_failure_witness :
    Runner.drop_exit_code
      (Runner.run_all
        (Runner.new { parallel := true, exit_on_failure := false })
        [witness_suite_mixed]).2 = none := by
  have h := (C8_exit_on_failure
    { parallel := true, exit_on_failure := false }
    [witness_suite_mixed]).2.1
  exact h (Or.inl rfl)

end Rspec
